import Mathlib

/-!
Verification of the x402 Solana SDK payment core.

This file gives a shallow embedding of the payment-critical functions of the
SDK (`src/sdk/solana-utils.ts` and `src/sdk/client.ts`) and proves the
spec's claims about them.

Modelling conventions:
- Solana addresses, signatures and mints are opaque base-58 strings; we model
  them as `String` and compare with equality, as the source does.
- JavaScript `BigInt` arithmetic on non-negative decimal digit strings is
  modelled by `natOfDigits`; differences of balances (which may be negative)
  are computed in `Int`, matching BigInt's exact signed arithmetic.
- `BigInt.prototype.toString` is modelled by `natDigits`, a fuel-based
  decimal printer (most significant digit first) that the kernel can
  evaluate.
- Fallible TypeScript code (`throw`) is modelled with `Except`; the RPC
  connection is modelled by passing the fetched data explicitly.
-/

set_option autoImplicit false

namespace X402

/-- Solana addresses / signatures / mints are base-58 strings in the source. -/
abbrev Address := String

/-- `NetworkSchema = z.enum(["mainnet-beta", "devnet", "testnet"])`. -/
inductive Network
  | mainnetBeta
  | devnet
  | testnet
deriving DecidableEq

/-- `TokenTypeSchema = z.enum(["SOL", "USDC", "USDT"])`. -/
inductive TokenType
  | SOL
  | USDC
  | USDT
deriving DecidableEq

/-- `PaymentSchemeSchema = z.enum(["exact", "upto"])`. -/
inductive PaymentScheme
  | exact
  | upto
deriving DecidableEq

/-- Commitment levels accepted by `verifyPaymentTransaction`. -/
inductive Commitment
  | confirmed
  | finalized
deriving DecidableEq

/-- The `TOKEN_MINTS` table of `solana-utils.ts`. -/
def TOKEN_MINTS (network : Network) (token : TokenType) : Address :=
  match network, token with
  | Network.mainnetBeta, TokenType.SOL => "So11111111111111111111111111111111111111112"
  | Network.mainnetBeta, TokenType.USDC => "EPjFWdd5AufqSSqeM2qN1xzybapC8G4wEGGkZwyTDt1v"
  | Network.mainnetBeta, TokenType.USDT => "Es9vMFrzaCERmJfrF4H2FYD4KCoNkY11McCe8BenwNYB"
  | Network.devnet, TokenType.SOL => "So11111111111111111111111111111111111111112"
  | Network.devnet, TokenType.USDC => "4zMMC9srt5Ri5X14GAgXhaHii3GnPAEERYPJgZJDncDU"
  | Network.devnet, TokenType.USDT => "EJwZgeZrdC8TXTQbQBoL6bfuAnFUUy1PVCMB4DYPzVaS"
  | Network.testnet, TokenType.SOL => "So11111111111111111111111111111111111111112"
  | Network.testnet, TokenType.USDC => "CpMah17kQEL2wqyMKt3mZBdTnZbkbfx4nqmQMFDP5vwp"
  | Network.testnet, TokenType.USDT => "EJwZgeZrdC8TXTQbQBoL6bfuAnFUUy1PVCMB4DYPzVaS"

/-- The `TOKEN_DECIMALS` table of `solana-utils.ts`. -/
def TOKEN_DECIMALS : TokenType → Nat
  | TokenType.SOL => 9
  | TokenType.USDC => 6
  | TokenType.USDT => 6

/-- Value of a decimal digit character (`'0'` ↦ 0 … `'9'` ↦ 9). -/
def charDigitVal (c : Char) : Nat := c.toNat - '0'.toNat

/-- Numeric value of a decimal digit string, most significant digit first.
This embeds JavaScript `BigInt(str)` on strings of decimal digits
(`BigInt("")` evaluates to `0n`, matching `natOfDigits [] = 0`). -/
def natOfDigits (l : List Char) : Nat :=
  l.foldl (fun acc c => 10 * acc + charDigitVal c) 0

/-- Fuel-based decimal printer: `natDigitsCore fuel n acc` prepends the
decimal digits of `n` (most significant first) to `acc`; fuel `n + 1`
always suffices. -/
def natDigitsCore : Nat → Nat → List Char → List Char
  | 0, _, acc => acc
  | fuel + 1, n, acc =>
    if n < 10 then Nat.digitChar n :: acc
    else natDigitsCore fuel (n / 10) (Nat.digitChar (n % 10) :: acc)

/-- Decimal digit string of `n`, most significant digit first.  This embeds
`BigInt.prototype.toString` for the non-negative values this SDK prints. -/
def natDigits (n : Nat) : List Char := natDigitsCore (n + 1) n []

/-- JavaScript `str.padStart(n, c)` for a single-character pad. -/
def padStart (l : List Char) (n : Nat) (c : Char) : List Char :=
  List.replicate (n - l.length) c ++ l

/-- JavaScript `str.padEnd(n, c)` for a single-character pad. -/
def padEnd (l : List Char) (n : Nat) (c : Char) : List Char :=
  l ++ List.replicate (n - l.length) c

/-- JavaScript `str.split(".")` on the character list of `str`. -/
def splitOnDot : List Char → List (List Char)
  | [] => [[]]
  | c :: rest =>
    if c = '.' then [] :: splitOnDot rest
    else
      match splitOnDot rest with
      | [] => [[c]]
      | h :: t => (c :: h) :: t

/-- Drop the trailing run of `'0'` characters. -/
def dropTrailingZeros (l : List Char) : List Char :=
  (l.reverse.dropWhile (fun c => c == '0')).reverse

/-- Embedding of `.replace(/\.?0+$/, "")`: the regex matches exactly when
the string ends in `'0'`, and then removes the maximal trailing zero run
together with a directly preceding dot. -/
def replaceDotZerosSuffix (l : List Char) : List Char :=
  if l.getLast? = some '0' then
    let t := dropTrailingZeros l
    if t.getLast? = some '.' then t.dropLast else t
  else l

/-- Embedding of `amountToBaseUnits` of `solana-utils.ts`, generalized over
the decimal count: split the amount string on `"."`, take the whole part
(`parts[0] || "0"`), pad the fractional part with zeros to `decimals` digits
and truncate it to `decimals` digits
(`(parts[1] || "").padEnd(decimals, "0").slice(0, decimals)`), then parse
the concatenation with `BigInt`. -/
def parseDecimalList (l : List Char) (decimals : Nat) : Nat :=
  let parts := splitOnDot l
  let whole := if (parts.getD 0 []).isEmpty then ['0'] else parts.getD 0 []
  let fraction := (padEnd (parts.getD 1 []) decimals '0').take decimals
  natOfDigits (whole ++ fraction)

/-- Embedding of `baseUnitsToAmount` of `solana-utils.ts`, generalized over
the decimal count: print the base units, left-pad with zeros to
`decimals + 1` characters, split into whole (`str.slice(0, -decimals)`,
`"0"` when empty) and fraction (`str.slice(-decimals)`, for the positive
decimal counts this SDK uses), join with a dot and strip the
`/\.?0+$/` suffix. -/
def renderDecimalList (baseUnits : Nat) (decimals : Nat) : List Char :=
  let str := padStart (natDigits baseUnits) (decimals + 1) '0'
  let whole0 := str.take (str.length - decimals)
  let whole := if whole0.isEmpty then ['0'] else whole0
  let fraction := str.drop (str.length - decimals)
  replaceDotZerosSuffix (whole ++ '.' :: fraction)

/-- `amountToBaseUnits(amount, token)` of `solana-utils.ts`. -/
def amountToBaseUnits (amount : String) (token : TokenType) : Nat :=
  parseDecimalList amount.data (TOKEN_DECIMALS token)

/-- `baseUnitsToAmount(baseUnits, token)` of `solana-utils.ts` (the source
takes a `bigint`; only non-negative values reach it in this SDK). -/
def baseUnitsToAmount (baseUnits : Nat) (token : TokenType) : String :=
  String.mk (renderDecimalList baseUnits (TOKEN_DECIMALS token))

/-- Decimal string with canonically printed whole part `n` (no leading
zeros) and fractional digit list `f`; an empty `f` means no decimal point. -/
def mkDecimalList (n : Nat) (f : List Char) : List Char :=
  natDigits n ++ (if f.isEmpty then [] else '.' :: f)

/-- String form of `mkDecimalList`. -/
def mkDecimal (n : Nat) (f : List Char) : String := String.mk (mkDecimalList n f)

/-- Spec-side definition for the round-trip claim: the canonical form of a
decimal string has no trailing zero padding beyond the precision — for a
string with one dot, trailing zeros of the fractional part are dropped, and
the dot too when the whole fractional part is zeros. -/
def canonicalList (l : List Char) : List Char :=
  if (splitOnDot l).length = 2 then
    let w := (splitOnDot l).getD 0 []
    let f1 := dropTrailingZeros ((splitOnDot l).getD 1 [])
    if f1.isEmpty then w else w ++ '.' :: f1
  else l

/-- String form of `canonicalList`. -/
def canonical (d : String) : String := String.mk (canonicalList d.data)

/-- A valid decimal string within precision `decimals`: a canonically
printed whole part, optionally followed by a dot and at most `decimals`
fractional digits. -/
def ValidDecimal (d : String) (decimals : Nat) : Prop :=
  ∃ n f, (∀ c ∈ f, c.isDigit = true) ∧ f.length ≤ decimals ∧ d = mkDecimal n f

/-- `PaymentRequirementsSchema` of `shared/x402-types.ts`.  The `amount`
field is a decimal base-unit integer string, parsed with `BigInt` wherever
the source consumes it. -/
structure PaymentRequirements where
  scheme : PaymentScheme
  network : Network
  amount : String
  token : TokenType
  recipient : Address
  memo : Option String
  deadline : Option Nat
  requestId : Option String

/-- `PaymentProofSchema` of `shared/x402-types.ts`. -/
structure PaymentProof where
  signature : String
  network : Network
  requestId : Option String
  timestamp : Nat

/-- One entry of `meta.preTokenBalances` / `meta.postTokenBalances` in a
fetched transaction.  `amount` is `uiTokenAmount.amount`, a decimal digit
string parsed with `BigInt` by the verifier. -/
structure TokenBalance where
  owner : Address
  mint : Address
  amount : String
deriving DecidableEq

/-- The data `connection.getTransaction` returns for a present transaction,
restricted to the fields `verifyPaymentTransaction` reads.  `err` is whether
`meta.err` is non-null. -/
structure FetchedTransaction where
  err : Bool
  slot : Nat
  staticAccountKeys : List Address
  preBalances : List Nat
  postBalances : List Nat
  preTokenBalances : List TokenBalance
  postTokenBalances : List TokenBalance

/-- Shallow embedding of `verifyPaymentTransaction` of `solana-utils.ts`.

The two RPC reads are passed explicitly: `fetched` is the result of
`connection.getTransaction(signature, ...)` (`none` when the transaction is
absent at the requested commitment), and `currentSlot` is the result of
`connection.getSlot(commitment)`.

Source correspondences, in order:
- absent transaction ⇒ `false`;
- `transaction.meta?.err` ⇒ `false`;
- the finality gate `if (commitment === "finalized" && transaction.slot)`:
  JavaScript number truthiness makes slot `0` skip the gate, hence the
  `tx.slot ≠ 0` conjunct; `currentSlot - transaction.slot` is JavaScript
  number subtraction, exact here, modelled in `Int`;
- the SOL branch finds the recipient in `staticAccountKeys`
  (`findIndex === -1` ⇒ `false`), reads `preBalances`/`postBalances` at that
  index (`|| 0` ⇒ `getD _ 0`) and rejects iff `post - pre < expected`;
- the USDC/USDT branch finds the first pre/post token balance entry whose
  `owner` is the recipient and whose `mint` is the asset's mint; a missing
  post entry ⇒ `false`, a missing pre entry counts as `0`, then the same
  `<` test.  (The source also computes the recipient's associated token
  address but never uses it afterwards.)
- the trailing `return false` for other token kinds is unreachable: the
  `TokenType` enum has exactly the three members matched here.
All thrown errors are caught by the surrounding `try`/`catch`, which returns
`false`; the embedding is accordingly a total `Bool`-valued function. -/
def verifyPaymentTransaction (fetched : Option FetchedTransaction)
    (currentSlot : Nat) (requirements : PaymentRequirements)
    (commitment : Commitment) : Bool :=
  match fetched with
  | none => false
  | some tx =>
    if tx.err then false
    else if commitment = Commitment.finalized ∧ tx.slot ≠ 0 ∧
        (currentSlot : Int) - (tx.slot : Int) < 32 then false
    else
      let expectedAmount : Int := (natOfDigits requirements.amount.data : Int)
      match requirements.token with
      | TokenType.SOL =>
        match tx.staticAccountKeys.findIdx? (fun key => key == requirements.recipient) with
        | none => false
        | some recipientIndex =>
          let preBalance : Int := (tx.preBalances.getD recipientIndex 0 : Int)
          let postBalance : Int := (tx.postBalances.getD recipientIndex 0 : Int)
          let actualAmount : Int := postBalance - preBalance
          if actualAmount < expectedAmount then false else true
      | _ =>
        let mintAddress := TOKEN_MINTS requirements.network requirements.token
        let postBalance := tx.postTokenBalances.find?
          (fun b => b.owner == requirements.recipient && b.mint == mintAddress)
        let preBalance := tx.preTokenBalances.find?
          (fun b => b.owner == requirements.recipient && b.mint == mintAddress)
        match postBalance with
        | none => false
        | some pb =>
          let actualAmount : Int := (natOfDigits pb.amount.data : Int) -
            (match preBalance with
             | some b => (natOfDigits b.amount.data : Int)
             | none => 0)
          if actualAmount < expectedAmount then false else true

/-- The accounts a fetched transaction involves: its static account keys
together with the owners reported by its post-transaction token balances. -/
def involvedAccounts (tx : FetchedTransaction) : List Address :=
  tx.staticAccountKeys ++ tx.postTokenBalances.map (fun b => b.owner)

/-- The decision the token branch of the verifier makes from the located
post and pre token balance entries and the expected amount. -/
def tokenVerdict (post pre : Option TokenBalance) (expected : Int) : Bool :=
  match post with
  | none => false
  | some pb =>
    if (natOfDigits pb.amount.data : Int) -
        (match pre with
         | some b => (natOfDigits b.amount.data : Int)
         | none => 0) < expected
    then false else true

/-- The decision the SOL branch of the verifier makes from the located
recipient index and the pre/post lamport balances. -/
def solVerdict (idx : Option Nat) (pre post : List Nat) (expected : Int) : Bool :=
  match idx with
  | none => false
  | some i =>
    if (post.getD i 0 : Int) - (pre.getD i 0 : Int) < expected then false else true

/-- Instructions a built payment transaction can contain. -/
inductive Instruction
  | systemTransfer (source dest : Address) (lamports : Nat)
  | createAssociatedTokenAccount (payer ata owner mint : Address)
  | tokenTransfer (source dest owner : Address) (amount : Nat)
deriving DecidableEq

/-- An unsigned transaction as assembled by the builder: its instruction
list in order, the `recentBlockhash` it was anchored to and its
`feePayer`. -/
structure BuiltTransaction where
  instructions : List Instruction
  recentBlockhash : String
  feePayer : Address
deriving DecidableEq

/-- The reads the Transaction Builder performs against the chain:
`connection.getAccountInfo` (modelled as existence), the
`getAssociatedTokenAddress` derivation (a pure function of mint and owner)
and `connection.getLatestBlockhash`. -/
structure ChainEnv where
  accountExists : Address → Bool
  associatedTokenAddress : Address → Address → Address
  latestBlockhash : String

/-- Failures of the Transaction Builder.  The source throws
`TransactionFailedError` in both cases; the constructors record which of
the two throw sites fired: `amountOutOfRange` is the SOL-path
`exceeds safe integer range` throw, `missingSourceAccount` is the
token-path `Sender does not have an associated token account` throw (the
spec's `MissingSourceAccount`). -/
inductive BuildError
  | amountOutOfRange
  | missingSourceAccount (token : TokenType) (senderATA : Address)
deriving DecidableEq

/-- `Number.MAX_SAFE_INTEGER`. -/
def MAX_SAFE_INTEGER : Nat := 2 ^ 53 - 1

/-- Embedding of `createSOLPaymentTransaction` of `solana-utils.ts`. -/
def createSOLPaymentTransaction (env : ChainEnv) (payer : Address)
    (req : PaymentRequirements) : Except BuildError BuiltTransaction :=
  let lamports := natOfDigits req.amount.data
  if lamports > MAX_SAFE_INTEGER then
    Except.error BuildError.amountOutOfRange
  else
    Except.ok ⟨[Instruction.systemTransfer payer req.recipient lamports],
      env.latestBlockhash, payer⟩

/-- Embedding of `createTokenPaymentTransaction` of `solana-utils.ts`: it
resolves the sender's and recipient's associated token accounts, throws
when the sender's does not exist (and in particular never creates it),
prepends a create-account instruction when the recipient's does not exist,
and appends the token transfer. -/
def createTokenPaymentTransaction (env : ChainEnv) (payer : Address)
    (req : PaymentRequirements) : Except BuildError BuiltTransaction :=
  let mintAddress := TOKEN_MINTS req.network req.token
  let amount := natOfDigits req.amount.data
  let senderATA := env.associatedTokenAddress mintAddress payer
  let recipientATA := env.associatedTokenAddress mintAddress req.recipient
  if env.accountExists senderATA = false then
    Except.error (BuildError.missingSourceAccount req.token senderATA)
  else
    Except.ok ⟨(if env.accountExists recipientATA = false then
        [Instruction.createAssociatedTokenAccount payer recipientATA
          req.recipient mintAddress]
      else []) ++
      [Instruction.tokenTransfer senderATA recipientATA payer amount],
      env.latestBlockhash, payer⟩

/-- Embedding of `createPaymentTransaction` of `solana-utils.ts`. -/
def createPaymentTransaction (env : ChainEnv) (payer : Address)
    (req : PaymentRequirements) : Except BuildError BuiltTransaction :=
  if req.token = TokenType.SOL then createSOLPaymentTransaction env payer req
  else createTokenPaymentTransaction env payer req

/-- Embedding of `X402Client.executePayment` of `client.ts`, at the
granularity the builder claims need: build the payment transaction, and
only when the build succeeded sign-and-submit it (abstracted by `submit`)
and assemble the Payment Proof from the signature, the requirements'
network and correlation id, and the current instant.  The second component
records every transaction handed to the network, so a build failure is
visible as an empty submission list. -/
def executePayment (env : ChainEnv) (payer : Address) (req : PaymentRequirements)
    (submit : BuiltTransaction → String) (now : Nat) :
    Except BuildError PaymentProof × List BuiltTransaction :=
  match createPaymentTransaction env payer req with
  | Except.error e => (Except.error e, [])
  | Except.ok tx =>
    (Except.ok ⟨submit tx, req.network, req.requestId, now⟩, [tx])

/-- The request properties of a `fetch` options object: method, body and
headers.  Header names are taken as already canonicalized (JavaScript
`Headers` normalizes case); `headersSet` is `Headers.prototype.set`:
replace the entry in place when the name exists, append otherwise. -/
structure RequestOptions where
  method : Option String
  body : Option String
  headers : List (String × String)
deriving DecidableEq

/-- `Headers.prototype.set`. -/
def headersSet (hs : List (String × String)) (name value : String) :
    List (String × String) :=
  if hs.any (fun p => p.1 == name) then
    hs.map (fun p => if p.1 == name then (name, value) else p)
  else hs ++ [(name, value)]

/-- `Headers.prototype.get`. -/
def headersGet (hs : List (String × String)) (name : String) : Option String :=
  (hs.find? (fun p => p.1 == name)).map (fun p => p.2)

/-- Wire form of a network identifier. -/
def networkId : Network → String
  | Network.mainnetBeta => "mainnet-beta"
  | Network.devnet => "devnet"
  | Network.testnet => "testnet"

/-- `JSON.stringify(proof)` for a Payment Proof. -/
def serializeProof (p : PaymentProof) : String :=
  "\x7b\"signature\":\"" ++ p.signature ++ "\",\"network\":\"" ++
    networkId p.network ++ "\"" ++
    (match p.requestId with
     | some r => ",\"requestId\":\"" ++ r ++ "\""
     | none => "") ++
    ",\"timestamp\":" ++ toString p.timestamp ++ "\x7d"

/-- Embedding of `X402Client.retryWithPayment` of `client.ts`: copy the
original options, set the `X-Payment` header to the serialized proof, set
`Content-Type` to `application/json`, and re-issue with the original
method and body. -/
def retryWithPayment (options : RequestOptions) (proof : PaymentProof) :
    RequestOptions :=
  ⟨options.method, options.body,
    headersSet (headersSet options.headers "X-Payment" (serializeProof proof))
      "Content-Type" "application/json"⟩

/-- An HTTP response as the client observes it: the status code, and the
result of parsing its body as Payment Requirements (`none` when the parse
fails). -/
structure HttpResponse where
  status : Nat
  bodyRequirements : Option PaymentRequirements

/-- Terminal outcomes of `X402Client.fetch`: a returned response, the parse
error thrown by `parsePaymentRequirements`, the `PaymentRequiredError`
carrying the parsed requirements, or a `TransactionFailedError` from the
payment pipeline. -/
inductive ClientOutcome
  | success (response : HttpResponse)
  | parseFailure
  | paymentRequired (requirements : PaymentRequirements)
  | transactionFailed (e : BuildError)

/-- Externally visible actions of the client, used to state that a given
run performs no build or submission. -/
inductive ClientAction
  | httpRequest (options : RequestOptions)
  | buildTransaction
  | submitTransaction
deriving DecidableEq

/-- Embedding of `X402Client.fetch` of `client.ts`.  `hasSigner` is whether
`options.signer || this.config.signer` is present; `pay` abstracts the
payment pipeline (`onPaymentRequired` or `executePayment`), returning its
outcome together with the actions it performed; `send` abstracts the
underlying `fetch`.  The function returns the terminal outcome and the
trace of performed actions: the initial request; then, on a 402 with
`autoPayment`, either the thrown error (no signer, or body parse failure —
both before any payment action) or the payment actions followed by the
retried request with the payment header attached. -/
def clientFetch (hasSigner autoPayment : Bool) (options : RequestOptions)
    (initial : HttpResponse)
    (pay : PaymentRequirements → Except BuildError PaymentProof × List ClientAction)
    (send : RequestOptions → HttpResponse) :
    ClientOutcome × List ClientAction :=
  if initial.status = 402 ∧ autoPayment then
    if hasSigner = false then
      match initial.bodyRequirements with
      | none => (ClientOutcome.parseFailure, [ClientAction.httpRequest options])
      | some req =>
        (ClientOutcome.paymentRequired req, [ClientAction.httpRequest options])
    else
      match initial.bodyRequirements with
      | none => (ClientOutcome.parseFailure, [ClientAction.httpRequest options])
      | some req =>
        match pay req with
        | (Except.error e, payActs) =>
          (ClientOutcome.transactionFailed e,
            ClientAction.httpRequest options :: payActs)
        | (Except.ok proof, payActs) =>
          (ClientOutcome.success (send (retryWithPayment options proof)),
            ClientAction.httpRequest options :: payActs ++
              [ClientAction.httpRequest (retryWithPayment options proof)])
  else (ClientOutcome.success initial, [ClientAction.httpRequest options])

/-- Sample recipient address used by the concrete witnesses below. -/
def sampleRecipient : Address := "RecipientAddr111"

/-- Sample SOL payment requirements: 1000000 lamports to `sampleRecipient`
on devnet. -/
def sampleReqSOL : PaymentRequirements :=
  ⟨PaymentScheme.exact, Network.devnet, "1000000", TokenType.SOL,
    sampleRecipient, none, none, none⟩

/-- Sample fetched SOL transaction: included at slot 100, moves exactly
1000000 lamports to `sampleRecipient` (the payer also pays a 5005 lamport
fee on their own side). -/
def sampleTxSOL : FetchedTransaction :=
  ⟨false, 100, ["PayerAddr1111111", sampleRecipient],
    [5000000, 0], [3994995, 1000000], [], []⟩

/-- `sampleTxSOL` with the exact required amount sent to a different address
than the requirements' recipient. -/
def sampleTxOther : FetchedTransaction :=
  ⟨false, 100, ["PayerAddr1111111", "OtherAddr1111111"],
    [5000000, 0], [3994995, 1000000], [], []⟩

/-- `sampleTxSOL` reported at inclusion slot 0. -/
def sampleTxSlot0 : FetchedTransaction :=
  ⟨false, 0, ["PayerAddr1111111", sampleRecipient],
    [5000000, 0], [3994995, 1000000], [], []⟩

/-- Sample USDC payment requirements: 250000 base units to
`sampleRecipient` on devnet. -/
def sampleReqUSDC : PaymentRequirements :=
  ⟨PaymentScheme.exact, Network.devnet, "250000", TokenType.USDC,
    sampleRecipient, none, none, none⟩

/-- Sample fetched USDC transaction: the recipient's token account receives
250000 base units (no pre entry for the recipient, counting as zero). -/
def sampleTxUSDC : FetchedTransaction :=
  ⟨false, 100, ["PayerAddr1111111", "PayerATA11111111", "RecipientATA1111"],
    [], [],
    [⟨"PayerAddr1111111", "4zMMC9srt5Ri5X14GAgXhaHii3GnPAEERYPJgZJDncDU", "900000"⟩],
    [⟨"PayerAddr1111111", "4zMMC9srt5Ri5X14GAgXhaHii3GnPAEERYPJgZJDncDU", "650000"⟩,
     ⟨sampleRecipient, "4zMMC9srt5Ri5X14GAgXhaHii3GnPAEERYPJgZJDncDU", "250000"⟩]⟩

/-- Sample fetch options used by the client witnesses. -/
def sampleOptions : RequestOptions :=
  ⟨some "GET", none, [("Accept", "application/json")]⟩

/-- Sample 402 challenge response carrying `sampleReqSOL`. -/
def sample402Response : HttpResponse := ⟨402, some sampleReqSOL⟩

/-- Sample payment pipeline that would fail if it were ever invoked. -/
def samplePay :
    PaymentRequirements → Except BuildError PaymentProof × List ClientAction :=
  fun _ => (Except.error BuildError.amountOutOfRange,
    [ClientAction.buildTransaction])

/-- Sample transport returning a generic success response. -/
def sampleSend : RequestOptions → HttpResponse := fun _ => ⟨200, none⟩

/-- Sample options with a `Content-Type` header, for the retry
counterexample. -/
def sampleOptionsCT : RequestOptions :=
  ⟨some "POST", some "hello", [("Content-Type", "text/plain")]⟩

/-- Sample payment proof. -/
def sampleProof : PaymentProof :=
  ⟨"Sig1111111111111", Network.devnet, none, 1700000000000⟩

/-- Sample chain environment in which no account exists (in particular the
payer has no associated token account). -/
def sampleEnvNoSender : ChainEnv :=
  ⟨fun _ => false, fun mint owner => "ATA:" ++ mint ++ ":" ++ owner,
    "Blockhash1111111"⟩

/-- Sample sign-and-send function. -/
def sampleSubmit : BuiltTransaction → String := fun _ => "Sig1111111111111"

lemma isDigit_iff_toNat {c : Char} : c.isDigit = true ↔ 48 ≤ c.toNat ∧ c.toNat ≤ 57 := by
  simp only [Char.isDigit, Bool.and_eq_true, decide_eq_true_eq, ge_iff_le]
  constructor
  · rintro ⟨h1, h2⟩
    rw [UInt32.le_def, BitVec.le_def] at h1 h2
    exact ⟨h1, h2⟩
  · rintro ⟨h1, h2⟩
    rw [UInt32.le_def, BitVec.le_def]
    rw [UInt32.le_def, BitVec.le_def]
    exact ⟨h1, h2⟩

lemma char_eq_of_toNat_eq {c1 c2 : Char} (h : c1.toNat = c2.toNat) : c1 = c2 :=
  Char.ext (UInt32.toNat.inj h)

lemma charDigitVal_le_nine {c : Char} (h : c.isDigit = true) : charDigitVal c ≤ 9 := by
  obtain ⟨h1, h2⟩ := isDigit_iff_toNat.mp h
  have h0 : Char.toNat '0' = 48 := by decide
  unfold charDigitVal
  omega

lemma digit_eq_of_val_eq {c1 c2 : Char} (h1 : c1.isDigit = true)
    (h2 : c2.isDigit = true) (h : charDigitVal c1 = charDigitVal c2) : c1 = c2 := by
  obtain ⟨a1, b1⟩ := isDigit_iff_toNat.mp h1
  obtain ⟨a2, b2⟩ := isDigit_iff_toNat.mp h2
  have h0 : Char.toNat '0' = 48 := by decide
  unfold charDigitVal at h
  exact char_eq_of_toNat_eq (by omega)

lemma digitChar_isDigit {k : Nat} (h : k < 10) : (Nat.digitChar k).isDigit = true := by
  interval_cases k <;> decide

lemma charDigitVal_digitChar {k : Nat} (h : k < 10) : charDigitVal (Nat.digitChar k) = k := by
  interval_cases k <;> decide

lemma isDigit_ne_dot {c : Char} (h : c.isDigit = true) : c ≠ '.' := by
  intro he
  subst he
  simp at h

lemma natDigitsCore_eq : ∀ (fuel n : Nat) (acc : List Char), n < fuel →
    natDigitsCore fuel n acc = natDigits n ++ acc := by
  intro fuel
  induction fuel using Nat.strong_induction_on with
  | _ fuel ih =>
    intro n acc h
    match fuel, h with
    | f + 1, h =>
      by_cases h10 : n < 10
      · simp [natDigitsCore, h10, natDigits]
      · have hrec : natDigitsCore (f + 1) n acc =
            natDigitsCore f (n / 10) (Nat.digitChar (n % 10) :: acc) := by
          simp [natDigitsCore, h10]
        have hdiv : n / 10 < n := Nat.div_lt_self (by omega) (by omega)
        rw [hrec, ih f (by omega) (n / 10) _ (by omega)]
        have hself : natDigits n = natDigits (n / 10) ++ [Nat.digitChar (n % 10)] := by
          show natDigitsCore (n + 1) n [] = _
          have : natDigitsCore (n + 1) n [] =
              natDigitsCore n (n / 10) [Nat.digitChar (n % 10)] := by
            simp [natDigitsCore, h10]
          rw [this, ih n (by omega) (n / 10) _ (by omega)]
        rw [hself]
        simp

lemma natDigits_eq (n : Nat) : natDigits n =
    if n < 10 then [Nat.digitChar n]
    else natDigits (n / 10) ++ [Nat.digitChar (n % 10)] := by
  by_cases h10 : n < 10
  · simp [natDigits, natDigitsCore, h10]
  · rw [if_neg h10]
    show natDigitsCore (n + 1) n [] = _
    have : natDigitsCore (n + 1) n [] =
        natDigitsCore n (n / 10) [Nat.digitChar (n % 10)] := by
      simp [natDigitsCore, h10]
    rw [this, natDigitsCore_eq n (n / 10) _ (by
      exact Nat.lt_of_lt_of_le (Nat.div_lt_self (by omega) (by omega)) (by omega))]

lemma natDigits_ne_nil (n : Nat) : natDigits n ≠ [] := by
  rw [natDigits_eq]
  split <;> simp

lemma natDigits_all_digits : ∀ n : Nat, ∀ c ∈ natDigits n, c.isDigit = true := by
  intro n
  induction n using Nat.strong_induction_on with
  | _ n ih =>
    rw [natDigits_eq]
    by_cases h10 : n < 10
    · simp only [if_pos h10, List.mem_singleton]
      rintro c rfl
      exact digitChar_isDigit h10
    · simp only [if_neg h10, List.mem_append, List.mem_singleton]
      rintro c (hc | rfl)
      · exact ih (n / 10) (Nat.div_lt_self (by omega) (by omega)) c hc
      · exact digitChar_isDigit (Nat.mod_lt _ (by omega))

lemma natOfDigits_shift (l : List Char) (acc : Nat) :
    l.foldl (fun acc c => 10 * acc + charDigitVal c) acc =
      acc * 10 ^ l.length + natOfDigits l := by
  induction l generalizing acc with
  | nil => simp [natOfDigits]
  | cons c l ih =>
    show l.foldl _ (10 * acc + charDigitVal c) = _
    rw [ih]
    have h2 : natOfDigits (c :: l) =
        charDigitVal c * 10 ^ l.length + natOfDigits l := by
      show l.foldl _ (10 * 0 + charDigitVal c) = _
      rw [ih]
      ring_nf
    rw [h2]
    simp [List.length_cons]
    ring

lemma natOfDigits_append (a b : List Char) :
    natOfDigits (a ++ b) = natOfDigits a * 10 ^ b.length + natOfDigits b := by
  unfold natOfDigits
  rw [List.foldl_append, natOfDigits_shift]
  rfl

lemma natOfDigits_singleton (c : Char) : natOfDigits [c] = charDigitVal c := by
  simp [natOfDigits]

lemma natOfDigits_replicate_zero (k : Nat) :
    natOfDigits (List.replicate k '0') = 0 := by
  induction k with
  | zero => rfl
  | succ k ih =>
    rw [List.replicate_succ]
    show (List.replicate k '0').foldl _ (10 * 0 + charDigitVal '0') = 0
    have : charDigitVal '0' = 0 := by decide
    rw [this]
    exact ih

lemma natOfDigits_lt (l : List Char) (h : ∀ c ∈ l, c.isDigit = true) :
    natOfDigits l < 10 ^ l.length := by
  induction l with
  | nil => simp [natOfDigits]
  | cons c l ih =>
    have hc : charDigitVal c ≤ 9 := charDigitVal_le_nine (h c (by simp))
    have hl : natOfDigits l < 10 ^ l.length := ih (fun c hc => h c (by simp [hc]))
    have h2 : natOfDigits (c :: l) =
        charDigitVal c * 10 ^ l.length + natOfDigits l := by
      show l.foldl _ (10 * 0 + charDigitVal c) = _
      rw [natOfDigits_shift]
      ring_nf
    rw [h2, List.length_cons, pow_succ]
    nlinarith [pow_pos (show (0:ℕ) < 10 by omega) l.length]

lemma natOfDigits_natDigits : ∀ n : Nat, natOfDigits (natDigits n) = n := by
  intro n
  induction n using Nat.strong_induction_on with
  | _ n ih =>
    rw [natDigits_eq]
    by_cases h10 : n < 10
    · rw [if_pos h10, natOfDigits_singleton, charDigitVal_digitChar h10]
    · rw [if_neg h10, natOfDigits_append,
        ih (n / 10) (Nat.div_lt_self (by omega) (by omega))]
      have : natOfDigits [Nat.digitChar (n % 10)] = n % 10 := by
        rw [natOfDigits_singleton,
          charDigitVal_digitChar (Nat.mod_lt n (show 0 < 10 by omega))]
      rw [this]
      simp
      omega

lemma natDigits_length_le : ∀ (n k : Nat), 1 ≤ k → n < 10 ^ k →
    (natDigits n).length ≤ k := by
  intro n
  induction n using Nat.strong_induction_on with
  | _ n ih =>
    intro k hk hn
    rw [natDigits_eq]
    by_cases h10 : n < 10
    · simp [h10, hk]
    · rw [if_neg h10]
      have hk2 : 2 ≤ k := by
        by_contra hcon
        have : k = 1 := by omega
        subst this
        simp at hn
        omega
      have hdiv : n / 10 < 10 ^ (k - 1) := by
        rw [Nat.div_lt_iff_lt_mul (by omega)]
        calc n < 10 ^ k := hn
        _ = 10 ^ (k - 1) * 10 := by
            rw [← pow_succ]
            congr 1
            omega
      have := ih (n / 10) (Nat.div_lt_self (by omega) (by omega)) (k - 1) (by omega) hdiv
      simp [List.length_append]
      omega

lemma natOfDigits_cons (c : Char) (l : List Char) :
    natOfDigits (c :: l) = charDigitVal c * 10 ^ l.length + natOfDigits l := by
  show l.foldl _ (10 * 0 + charDigitVal c) = _
  rw [natOfDigits_shift]
  ring_nf

lemma digit_head_unique {d1 d2 v1 v2 K : Nat} (h1 : v1 < K) (h2 : v2 < K)
    (hv : d1 * K + v1 = d2 * K + v2) : d1 = d2 ∧ v1 = v2 := by
  have hd12 : d1 = d2 := by
    rcases Nat.lt_trichotomy d1 d2 with h | h | h
    · exfalso
      have ha : (d1 + 1) * K ≤ d2 * K := Nat.mul_le_mul_right _ (by omega)
      have hb : (d1 + 1) * K = d1 * K + K := by ring
      omega
    · exact h
    · exfalso
      have ha : (d2 + 1) * K ≤ d1 * K := Nat.mul_le_mul_right _ (by omega)
      have hb : (d2 + 1) * K = d2 * K + K := by ring
      omega
  subst hd12
  omega

lemma natOfDigits_inj : ∀ (g1 g2 : List Char), g1.length = g2.length →
    (∀ c ∈ g1, c.isDigit = true) → (∀ c ∈ g2, c.isDigit = true) →
    natOfDigits g1 = natOfDigits g2 → g1 = g2 := by
  intro g1
  induction g1 with
  | nil =>
    intro g2 hlen _ _ _
    exact (List.eq_nil_of_length_eq_zero hlen.symm).symm
  | cons c1 t1 ih =>
    intro g2 hlen hd1 hd2 hv
    match g2 with
    | c2 :: t2 =>
      have hlen2 : t1.length = t2.length := by simpa using hlen
      rw [natOfDigits_cons, natOfDigits_cons, hlen2] at hv
      have hb1 : natOfDigits t1 < 10 ^ t2.length := by
        rw [← hlen2]
        exact natOfDigits_lt t1 (fun c hc => hd1 c (by simp [hc]))
      have hb2 : natOfDigits t2 < 10 ^ t2.length :=
        natOfDigits_lt t2 (fun c hc => hd2 c (by simp [hc]))
      have hK : 0 < 10 ^ t2.length := pow_pos (by omega) _
      obtain ⟨hd, hvt⟩ := digit_head_unique hb1 hb2 hv
      have hc12 : c1 = c2 :=
        digit_eq_of_val_eq (hd1 c1 (by simp)) (hd2 c2 (by simp)) hd
      rw [hc12, ih t2 hlen2 (fun c hc => hd1 c (by simp [hc]))
        (fun c hc => hd2 c (by simp [hc])) hvt]

lemma padStart_length (l : List Char) (n : Nat) (c : Char) (h : l.length ≤ n) :
    (padStart l n c).length = n := by
  simp [padStart]
  omega

lemma natOfDigits_padStart (l : List Char) (n : Nat) :
    natOfDigits (padStart l n '0') = natOfDigits l := by
  rw [padStart, natOfDigits_append, natOfDigits_replicate_zero]
  simp

lemma padStart_all_digits (l : List Char) (n : Nat)
    (h : ∀ c ∈ l, c.isDigit = true) :
    ∀ c ∈ padStart l n '0', c.isDigit = true := by
  intro c hc
  rcases List.mem_append.mp hc with hc | hc
  · rw [List.eq_of_mem_replicate hc]
    decide
  · exact h c hc

lemma padStart_natDigits_eq (g : List Char) (d : Nat) (hd : 1 ≤ d)
    (hg : ∀ c ∈ g, c.isDigit = true) (hlen : g.length = d) :
    padStart (natDigits (natOfDigits g)) d '0' = g := by
  have hlt : natOfDigits g < 10 ^ d := hlen ▸ natOfDigits_lt g hg
  have hle : (natDigits (natOfDigits g)).length ≤ d :=
    natDigits_length_le _ d hd hlt
  refine natOfDigits_inj _ _ ?_ ?_ hg ?_
  · rw [padStart_length _ _ _ hle, hlen]
  · exact padStart_all_digits _ _ (natDigits_all_digits _)
  · rw [natOfDigits_padStart, natOfDigits_natDigits]

lemma padStart_of_le_length (l : List Char) (n : Nat) (c : Char)
    (h : n ≤ l.length) : padStart l n c = l := by
  unfold padStart
  rw [Nat.sub_eq_zero_of_le h]
  simp

lemma padStart_singleton_step (x : Char) (d : Nat) :
    padStart ['0'] (d + 1) '0' ++ [x] = padStart [x] (d + 2) '0' := by
  simp only [padStart, List.length_singleton]
  rw [show d + 1 - 1 = d by omega, show d + 2 - 1 = d + 1 by omega]
  rw [List.replicate_succ' d '0']

lemma natDigits_mul_pow_add : ∀ (d n m : Nat), 1 ≤ n → m < 10 ^ (d + 1) →
    natDigits (n * 10 ^ (d + 1) + m) = natDigits n ++ padStart (natDigits m) (d + 1) '0' := by
  intro d
  induction d with
  | zero =>
    intro n m hn hm
    simp only [Nat.zero_add, pow_one] at hm ⊢
    have hv : ¬ n * 10 + m < 10 := by
      have : 10 ≤ n * 10 := by omega
      omega
    rw [natDigits_eq, if_neg hv]
    have hdiv : (n * 10 + m) / 10 = n := by omega
    have hmod : (n * 10 + m) % 10 = m := by omega
    rw [hdiv, hmod]
    have hm10 : natDigits m = [Nat.digitChar m] := by
      rw [natDigits_eq, if_pos hm]
    rw [hm10]
    simp [padStart]
  | succ d ih =>
    intro n m hn hm
    have h10 : (10:ℕ) ≤ 10 ^ (d + 1 + 1) := by
      calc (10:ℕ) = 10 ^ 1 := by ring
      _ ≤ 10 ^ (d + 1 + 1) := Nat.pow_le_pow_right (by omega) (by omega)
    have hv : ¬ n * 10 ^ (d + 1 + 1) + m < 10 := by
      have : 10 ^ (d + 1 + 1) ≤ n * 10 ^ (d + 1 + 1) := by
        have := Nat.mul_le_mul_right (10 ^ (d + 1 + 1)) hn
        omega
      omega
    rw [natDigits_eq, if_neg hv]
    have hdiv : (n * 10 ^ (d + 1 + 1) + m) / 10 = n * 10 ^ (d + 1) + m / 10 := by
      rw [show n * 10 ^ (d + 1 + 1) + m = m + (n * 10 ^ (d + 1)) * 10 by ring]
      rw [Nat.add_mul_div_right _ _ (show (0:ℕ) < 10 by omega)]
      omega
    have hmod : (n * 10 ^ (d + 1 + 1) + m) % 10 = m % 10 := by
      rw [show n * 10 ^ (d + 1 + 1) + m = m + (n * 10 ^ (d + 1)) * 10 by ring]
      rw [Nat.add_mul_mod_self_right]
    have hmdiv : m / 10 < 10 ^ (d + 1) := by
      rw [Nat.div_lt_iff_lt_mul (show (0:ℕ) < 10 by omega)]
      calc m < 10 ^ (d + 1 + 1) := hm
      _ = 10 ^ (d + 1) * 10 := by ring
    rw [hdiv, hmod, ih n (m / 10) hn hmdiv, List.append_assoc]
    congr 1
    by_cases hm10 : m < 10
    · have : m / 10 = 0 := by omega
      rw [this]
      have h0 : natDigits 0 = ['0'] := by rw [natDigits_eq]; rfl
      have hm1 : natDigits m = [Nat.digitChar m] := by
        rw [natDigits_eq, if_pos hm10]
      rw [h0, hm1, show m % 10 = m by omega]
      exact padStart_singleton_step _ _
    · have hmrec : natDigits m = natDigits (m / 10) ++ [Nat.digitChar (m % 10)] := by
        rw [natDigits_eq, if_neg hm10]
      rw [hmrec]
      have hL : (natDigits (m / 10)).length ≤ d + 1 :=
        natDigits_length_le _ _ (by omega) hmdiv
      simp only [padStart, List.length_append, List.length_singleton, List.append_assoc]
      congr 2
      omega

lemma padStart_natDigits_split (n m d : Nat) (hd : 1 ≤ d) (hm : m < 10 ^ d) :
    padStart (natDigits (n * 10 ^ d + m)) (d + 1) '0' =
      natDigits n ++ padStart (natDigits m) d '0' := by
  by_cases hn : 1 ≤ n
  · obtain ⟨d0, rfl⟩ : ∃ d0, d = d0 + 1 := ⟨d - 1, by omega⟩
    rw [natDigits_mul_pow_add d0 n m hn hm]
    have hlen : (natDigits n ++ padStart (natDigits m) (d0 + 1) '0').length ≥ d0 + 1 + 1 := by
      have h1 : (natDigits n).length ≥ 1 := by
        cases h : natDigits n with
        | nil => exact absurd h (natDigits_ne_nil n)
        | cons a l => simp
      have h2 : (padStart (natDigits m) (d0 + 1) '0').length = d0 + 1 :=
        padStart_length _ _ _ (natDigits_length_le _ _ (by omega) hm)
      simp [List.length_append, h2]
      omega
    exact padStart_of_le_length _ _ _ (by omega)
  · have hn0 : n = 0 := by omega
    subst hn0
    have h0 : natDigits 0 = ['0'] := by rw [natDigits_eq]; rfl
    have hle : (natDigits m).length ≤ d := natDigits_length_le _ _ hd hm
    rw [show 0 * 10 ^ d + m = m by ring, h0]
    simp only [padStart, List.singleton_append]
    rw [show d + 1 - (natDigits m).length = (d - (natDigits m).length) + 1 by omega]
    rw [List.replicate_succ]
    simp

lemma splitOnDot_ne_nil (l : List Char) : splitOnDot l ≠ [] := by
  cases l with
  | nil => simp [splitOnDot]
  | cons c rest =>
    rw [splitOnDot]
    split
    · simp
    · split <;> simp

lemma splitOnDot_no_dot (w : List Char) (h : '.' ∉ w) : splitOnDot w = [w] := by
  induction w with
  | nil => rfl
  | cons c rest ih =>
    rw [splitOnDot]
    rw [if_neg (by intro he; exact h (by simp [he]))]
    rw [ih (fun hm => h (by simp [hm]))]

lemma splitOnDot_append_dot (w r : List Char) (h : '.' ∉ w) :
    splitOnDot (w ++ '.' :: r) = w :: splitOnDot r := by
  induction w with
  | nil =>
    simp only [List.nil_append]
    rw [splitOnDot, if_pos rfl]
  | cons c rest ih =>
    rw [List.cons_append, splitOnDot]
    rw [if_neg (by intro he; exact h (by simp [he]))]
    rw [ih (fun hm => h (by simp [hm]))]

lemma dropTrailingZeros_append_dot (w f : List Char) :
    dropTrailingZeros (w ++ '.' :: f) = w ++ '.' :: dropTrailingZeros f := by
  unfold dropTrailingZeros
  rw [List.reverse_append, List.reverse_cons, List.append_assoc,
    List.dropWhile_append]
  have hdot : List.dropWhile (fun c => c == '0') (['.'] ++ w.reverse) =
      ['.'] ++ w.reverse := by
    simp only [List.singleton_append]
    exact List.dropWhile_cons_of_neg (by decide)
  split
  · next hemp =>
    have hf : f.reverse.dropWhile (fun c => c == '0') = [] := by
      cases h : f.reverse.dropWhile (fun c => c == '0') with
      | nil => rfl
      | cons a l =>
        rw [h] at hemp
        simp at hemp
    rw [hdot, hf]
    simp
  · simp

lemma dropTrailingZeros_pad (f : List Char) (k : Nat) :
    dropTrailingZeros (f ++ List.replicate k '0') = dropTrailingZeros f := by
  unfold dropTrailingZeros
  rw [List.reverse_append, List.reverse_replicate, List.dropWhile_append]
  split
  · rfl
  · next hemp =>
    exfalso
    have : (List.replicate k '0').dropWhile (fun c => c == '0') = [] := by
      rw [List.dropWhile_eq_nil_iff]
      intro x hx
      rw [List.eq_of_mem_replicate hx]
      decide
    rw [this] at hemp
    simp at hemp

lemma dropTrailingZeros_eq_self (l : List Char) (h : l.getLast? ≠ some '0') :
    dropTrailingZeros l = l := by
  unfold dropTrailingZeros
  rw [← List.head?_reverse] at h
  cases hr : l.reverse with
  | nil =>
    have := congrArg List.reverse hr
    simp only [List.reverse_reverse, List.reverse_nil] at this
    simp [this]
  | cons a t =>
    rw [hr] at h
    simp only [List.head?_cons, ne_eq, Option.some.injEq] at h
    rw [List.dropWhile_cons_of_neg (by simpa using h)]
    have := congrArg List.reverse hr
    simp only [List.reverse_reverse] at this
    exact this.symm

lemma dropTrailingZeros_subset (l : List Char) :
    ∀ c ∈ dropTrailingZeros l, c ∈ l := by
  intro c hc
  unfold dropTrailingZeros at hc
  rw [List.mem_reverse] at hc
  have hsub : List.Sublist (l.reverse.dropWhile (fun c => c == '0')) l.reverse :=
    List.dropWhile_sublist _
  have hm := hsub.mem hc
  rwa [List.mem_reverse] at hm

lemma getLast?_append_cons_of_ne_nil (w : List Char) (a : Char) (f : List Char)
    (hf : f ≠ []) : (w ++ a :: f).getLast? = f.getLast? := by
  rcases List.eq_nil_or_concat f with rfl | ⟨L, b, rfl⟩
  · exact absurd rfl hf
  · rw [show w ++ a :: L.concat b = (w ++ a :: L) ++ [b] by simp]
    rw [List.getLast?_concat]
    rw [show L.concat b = L ++ [b] by simp]
    rw [List.getLast?_concat]

lemma replaceDotZerosSuffix_spec (w f : List Char) (d : Nat) (hd : 1 ≤ d)
    (hf : ∀ c ∈ f, c.isDigit = true) (hlen : f.length ≤ d) :
    replaceDotZerosSuffix (w ++ '.' :: (f ++ List.replicate (d - f.length) '0')) =
      if (dropTrailingZeros f).isEmpty then w
      else w ++ '.' :: dropTrailingZeros f := by
  set fpad := f ++ List.replicate (d - f.length) '0' with hfpad
  have hfpadlen : fpad.length = d := by
    simp [hfpad]
    omega
  have hfpadne : fpad ≠ [] := by
    intro he
    rw [he] at hfpadlen
    simp at hfpadlen
    omega
  have hlast : (w ++ '.' :: fpad).getLast? = fpad.getLast? :=
    getLast?_append_cons_of_ne_nil w '.' fpad hfpadne
  by_cases hz : fpad.getLast? = some '0'
  · rw [replaceDotZerosSuffix, if_pos (by rw [hlast]; exact hz)]
    have ht : dropTrailingZeros (w ++ '.' :: fpad) = w ++ '.' :: dropTrailingZeros f := by
      rw [dropTrailingZeros_append_dot, hfpad, dropTrailingZeros_pad]
    cases hdtz : dropTrailingZeros f with
    | nil =>
      rw [ht, hdtz]
      rw [show (w ++ '.' :: [] : List Char) = w ++ ['.'] by simp]
      rw [if_pos (List.getLast?_concat _), List.dropLast_concat]
      simp
    | cons x rest =>
      rw [ht, hdtz]
      have hne : (x :: rest : List Char) ≠ [] := by simp
      have hxlast : ∃ y, (x :: rest).getLast? = some y ∧ y ∈ (x :: rest : List Char) := by
        refine ⟨(x :: rest).getLast hne, List.getLast?_eq_getLast _ hne, List.getLast_mem hne⟩
      obtain ⟨y, hy1, hy2⟩ := hxlast
      have hydig : y.isDigit = true := by
        refine hf y (dropTrailingZeros_subset f y ?_)
        rw [hdtz]
        exact hy2
      have hyne : y ≠ '.' := isDigit_ne_dot hydig
      rw [if_neg (by
        rw [getLast?_append_cons_of_ne_nil w '.' _ hne, hy1]
        intro hcon
        exact hyne (by simpa using hcon))]
      simp
  · have hrep : d - f.length = 0 := by
      by_contra hcon
      obtain ⟨k, hk⟩ : ∃ k, d - f.length = k + 1 := ⟨d - f.length - 1, by omega⟩
      apply hz
      rw [hfpad, hk, List.replicate_succ' k '0',
        show f ++ (List.replicate k '0' ++ ['0']) = (f ++ List.replicate k '0') ++ ['0'] by simp,
        List.getLast?_concat]
    have hfd : fpad = f := by
      rw [hfpad, hrep]
      simp
    have hflen : f.length = d := by omega
    have hfne : f ≠ [] := by
      intro he
      rw [he] at hflen
      simp at hflen
      omega
    have hfz : f.getLast? ≠ some '0' := by
      rw [← hfd]
      exact hz
    have hdtzf : dropTrailingZeros f = f := dropTrailingZeros_eq_self f hfz
    rw [replaceDotZerosSuffix, if_neg (by rw [hlast, hfd]; exact hfz)]
    rw [hdtzf, if_neg (by simpa using hfne), hfd]

lemma natDigits_no_dot (n : Nat) : '.' ∉ natDigits n := by
  intro hm
  exact isDigit_ne_dot (natDigits_all_digits n '.' hm) rfl

lemma digits_no_dot (f : List Char) (hf : ∀ c ∈ f, c.isDigit = true) : '.' ∉ f := by
  intro hm
  exact isDigit_ne_dot (hf '.' hm) rfl

lemma mkDecimal_nil (n : Nat) : mkDecimalList n [] = natDigits n := by
  simp [mkDecimalList]

lemma mkDecimal_cons (n : Nat) (f : List Char) (hne : f ≠ []) :
    mkDecimalList n f = natDigits n ++ '.' :: f := by
  simp [mkDecimalList, hne]

lemma parse_mkDecimal (n : Nat) (f : List Char) (d : Nat)
    (hf : ∀ c ∈ f, c.isDigit = true) :
    parseDecimalList (mkDecimalList n f) d =
      natOfDigits (natDigits n ++ (padEnd f d '0').take d) := by
  by_cases hfe : f = []
  · subst hfe
    rw [mkDecimal_nil]
    simp only [parseDecimalList]
    rw [splitOnDot_no_dot _ (natDigits_no_dot n)]
    simp only [List.getD_cons_zero, List.getD_cons_succ, List.getD_nil]
    rw [if_neg (by simpa using natDigits_ne_nil n)]
  · rw [mkDecimal_cons n f hfe]
    simp only [parseDecimalList]
    rw [splitOnDot_append_dot _ _ (natDigits_no_dot n),
      splitOnDot_no_dot _ (digits_no_dot f hf)]
    simp only [List.getD_cons_zero, List.getD_cons_succ]
    rw [if_neg (by simpa using natDigits_ne_nil n)]

lemma padEnd_take_of_le (f : List Char) (d : Nat) (hlen : f.length ≤ d) :
    (padEnd f d '0').take d = f ++ List.replicate (d - f.length) '0' := by
  unfold padEnd
  exact List.take_of_length_le (by simp; omega)

lemma render_split (n m d : Nat) (hd : 1 ≤ d) (hm : m < 10 ^ d) :
    renderDecimalList (n * 10 ^ d + m) d =
      replaceDotZerosSuffix (natDigits n ++ '.' :: padStart (natDigits m) d '0') := by
  simp only [renderDecimalList]
  rw [padStart_natDigits_split n m d hd hm]
  have hfp : (padStart (natDigits m) d '0').length = d :=
    padStart_length _ _ _ (natDigits_length_le _ _ hd hm)
  have hslen : (natDigits n ++ padStart (natDigits m) d '0').length - d =
      (natDigits n).length := by
    simp [List.length_append, hfp]
  rw [hslen, List.take_left, List.drop_left]
  rw [if_neg (by simpa using natDigits_ne_nil n)]

theorem roundtrip_list (n : Nat) (f : List Char) (d : Nat) (hd : 1 ≤ d)
    (hf : ∀ c ∈ f, c.isDigit = true) (hlen : f.length ≤ d) :
    renderDecimalList (parseDecimalList (mkDecimalList n f) d) d =
      canonicalList (mkDecimalList n f) := by
  set fpad := f ++ List.replicate (d - f.length) '0' with hfpad
  have hfpdig : ∀ c ∈ fpad, c.isDigit = true := by
    intro c hc
    rcases List.mem_append.mp hc with hc | hc
    · exact hf c hc
    · rw [List.eq_of_mem_replicate hc]
      decide
  have hfplen : fpad.length = d := by
    simp [hfpad]
    omega
  have hm : natOfDigits fpad < 10 ^ d := by
    rw [← hfplen]
    exact natOfDigits_lt fpad hfpdig
  have hparse : parseDecimalList (mkDecimalList n f) d = n * 10 ^ d + natOfDigits fpad := by
    rw [parse_mkDecimal n f d hf, padEnd_take_of_le f d hlen, ← hfpad,
      natOfDigits_append, hfplen, natOfDigits_natDigits]
  rw [hparse, render_split n (natOfDigits fpad) d hd hm,
    padStart_natDigits_eq fpad d hd hfpdig hfplen]
  rw [hfpad, replaceDotZerosSuffix_spec (natDigits n) f d hd hf hlen]
  by_cases hfe : f = []
  · subst hfe
    rw [mkDecimal_nil]
    simp only [canonicalList]
    rw [splitOnDot_no_dot _ (natDigits_no_dot n)]
    simp [dropTrailingZeros]
  · rw [mkDecimal_cons n f hfe]
    simp only [canonicalList]
    rw [splitOnDot_append_dot _ _ (natDigits_no_dot n),
      splitOnDot_no_dot _ (digits_no_dot f hf)]
    simp only [List.length_cons, List.length_singleton,
      List.getD_cons_zero, List.getD_cons_succ]
    norm_num

lemma findIdx?_eq_none_of_forall {α : Type} (p : α → Bool) (l : List α)
    (h : ∀ a ∈ l, p a = false) : ∀ s : Nat, List.findIdx? p l s = none := by
  induction l with
  | nil => intro s; rfl
  | cons a l ih =>
    intro s
    simp only [List.findIdx?, h a (by simp)]
    exact ih (fun a ha => h a (by simp [ha])) (s + 1)

/-- Behaviour of the verifier on a present, successful SOL transaction whose
recipient was located at index `i` of the static account keys, once the
finality gate does not fire: it accepts exactly when the recipient's
post-minus-pre lamport delta is at least the required amount. -/
lemma verify_some_sol (tx : FetchedTransaction) (currentSlot : Nat)
    (req : PaymentRequirements) (c : Commitment) (i : Nat)
    (herr : tx.err = false)
    (htok : req.token = TokenType.SOL)
    (hfin : ¬(c = Commitment.finalized ∧ tx.slot ≠ 0 ∧
      (currentSlot : Int) - (tx.slot : Int) < 32))
    (hidx : tx.staticAccountKeys.findIdx? (fun key => key == req.recipient) = some i) :
    verifyPaymentTransaction (some tx) currentSlot req c = true ↔
      (natOfDigits req.amount.data : Int) ≤
        (tx.postBalances.getD i 0 : Int) - (tx.preBalances.getD i 0 : Int) := by
  rw [verifyPaymentTransaction]
  rw [herr]
  simp only [Bool.false_eq_true, if_false, if_neg hfin, htok, hidx]
  constructor
  · intro h
    by_contra hlt
    rw [if_pos (by omega)] at h
    exact Bool.false_ne_true h
  · intro h
    rw [if_neg (by omega)]


lemma tokenVerdict_eq_true_iff (post pre : Option TokenBalance) (expected : Int) :
    tokenVerdict post pre expected = true ↔
      ∃ pb, post = some pb ∧
        expected ≤ (natOfDigits pb.amount.data : Int) -
          (match pre with
           | some b => (natOfDigits b.amount.data : Int)
           | none => 0) := by
  cases post <;> cases pre <;> simp [tokenVerdict]

/-- Behaviour of the verifier on a present, successful USDC/USDT transaction
once the finality gate does not fire: it accepts exactly when a
post-transaction token balance entry matching the recipient owner and the
asset's mint exists and its amount, minus the matching pre entry's amount
(zero when absent), is at least the required amount. -/
lemma verify_some_token (tx : FetchedTransaction) (currentSlot : Nat)
    (req : PaymentRequirements) (c : Commitment)
    (herr : tx.err = false)
    (htok : req.token = TokenType.USDC ∨ req.token = TokenType.USDT)
    (hfin : ¬(c = Commitment.finalized ∧ tx.slot ≠ 0 ∧
      (currentSlot : Int) - (tx.slot : Int) < 32)) :
    verifyPaymentTransaction (some tx) currentSlot req c = true ↔
      ∃ pb, tx.postTokenBalances.find?
          (fun b => b.owner == req.recipient &&
            b.mint == TOKEN_MINTS req.network req.token) = some pb ∧
        (natOfDigits req.amount.data : Int) ≤
          (natOfDigits pb.amount.data : Int) -
            (match tx.preTokenBalances.find?
                (fun b => b.owner == req.recipient &&
                  b.mint == TOKEN_MINTS req.network req.token) with
             | some b => (natOfDigits b.amount.data : Int)
             | none => 0) := by
  have main : verifyPaymentTransaction (some tx) currentSlot req c =
      tokenVerdict
        (tx.postTokenBalances.find?
          (fun b => b.owner == req.recipient &&
            b.mint == TOKEN_MINTS req.network req.token))
        (tx.preTokenBalances.find?
          (fun b => b.owner == req.recipient &&
            b.mint == TOKEN_MINTS req.network req.token))
        (natOfDigits req.amount.data : Int) := by
    rw [verifyPaymentTransaction]
    rw [herr]
    rcases htok with h | h <;>
      simp only [Bool.false_eq_true, if_false, if_neg hfin, h] <;> rfl
  rw [main, tokenVerdict_eq_true_iff]


/-- Stepped form of the verifier on a present transaction. -/
lemma verify_some_eq (tx : FetchedTransaction) (currentSlot : Nat)
    (req : PaymentRequirements) (c : Commitment) :
    verifyPaymentTransaction (some tx) currentSlot req c =
      if tx.err then false
      else if c = Commitment.finalized ∧ tx.slot ≠ 0 ∧
          (currentSlot : Int) - (tx.slot : Int) < 32 then false
      else
        match req.token with
        | TokenType.SOL =>
          solVerdict (tx.staticAccountKeys.findIdx? (fun key => key == req.recipient))
            tx.preBalances tx.postBalances (natOfDigits req.amount.data : Int)
        | _ =>
          tokenVerdict
            (tx.postTokenBalances.find?
              (fun b => b.owner == req.recipient &&
                b.mint == TOKEN_MINTS req.network req.token))
            (tx.preTokenBalances.find?
              (fun b => b.owner == req.recipient &&
                b.mint == TOKEN_MINTS req.network req.token))
            (natOfDigits req.amount.data : Int) := by
  rw [verifyPaymentTransaction]
  rcases req with ⟨sch, net, amt, tok, rcp, memo, dl, rid⟩
  cases tok <;> rfl

lemma find?_map_replace (hs : List (String × String)) (n v m : String)
    (h : m ≠ n) :
    (hs.map (fun p => if p.1 == n then (n, v) else p)).find? (fun p => p.1 == m) =
      hs.find? (fun p => p.1 == m) := by
  induction hs with
  | nil => rfl
  | cons p t ih =>
    by_cases hp : p.1 = n
    · rw [List.map_cons, if_pos (by simp [hp])]
      rw [List.find?_cons_of_neg _ (by simp; exact fun he => h he.symm),
        List.find?_cons_of_neg _ (by simp [hp]; exact fun he => h he.symm)]
      exact ih
    · rw [List.map_cons, if_neg (by simp [hp])]
      by_cases hm : p.1 = m
      · rw [List.find?_cons_of_pos _ (by simp [hm]),
          List.find?_cons_of_pos _ (by simp [hm])]
      · rw [List.find?_cons_of_neg _ (by simp [hm]),
          List.find?_cons_of_neg _ (by simp [hm])]
        exact ih

lemma find?_map_replace_self (hs : List (String × String)) (n v : String)
    (hany : hs.any (fun p => p.1 == n) = true) :
    (hs.map (fun p => if p.1 == n then (n, v) else p)).find? (fun p => p.1 == n) =
      some (n, v) := by
  induction hs with
  | nil => simp at hany
  | cons p t ih =>
    by_cases hp : p.1 = n
    · rw [List.map_cons, if_pos (by simp [hp]), List.find?_cons_of_pos _ (by simp)]
    · rw [List.map_cons, if_neg (by simp [hp]),
        List.find?_cons_of_neg _ (by simp [hp])]
      exact ih (by simpa [hp] using hany)

lemma headersGet_headersSet_ne (hs : List (String × String)) (n v m : String)
    (h : m ≠ n) : headersGet (headersSet hs n v) m = headersGet hs m := by
  unfold headersGet headersSet
  split
  · rw [find?_map_replace hs n v m h]
  · rw [List.find?_append]
    have hone : List.find? (fun p : String × String => p.1 == m) [(n, v)] = none := by
      simp
      exact fun he => h he.symm
    rw [hone]
    cases hs.find? (fun p => p.1 == m) <;> rfl

lemma headersGet_headersSet_self (hs : List (String × String)) (n v : String) :
    headersGet (headersSet hs n v) n = some v := by
  unfold headersGet headersSet
  split
  · next hany =>
    rw [find?_map_replace_self hs n v hany]
    rfl
  · next hany =>
    rw [List.find?_append]
    have hnone : hs.find? (fun p => p.1 == n) = none := by
      rw [List.find?_eq_none]
      intro p hp hcon
      exact hany (List.any_eq_true.mpr ⟨p, hp, hcon⟩)
    rw [hnone]
    simp

/-- C1: for every native-asset (SOL) verification of a present, successful
transaction on which the finality gate does not fire and whose recipient was
located at index `i` of the account keys, the verifier accepts exactly when
the recipient's post-balance minus pre-balance (computed in unbounded
integers) is at least the required base-unit amount: a delta of
`amount - 1` is rejected and any delta of `amount` or more is accepted,
with no tolerance subtracted on the recipient side. -/
theorem verify_sol_amount_delta (tx : FetchedTransaction) (currentSlot : Nat)
    (req : PaymentRequirements) (c : Commitment) (i : Nat)
    (herr : tx.err = false)
    (htok : req.token = TokenType.SOL)
    (hfin : ¬(c = Commitment.finalized ∧ tx.slot ≠ 0 ∧
      (currentSlot : Int) - (tx.slot : Int) < 32))
    (hidx : tx.staticAccountKeys.findIdx? (fun key => key == req.recipient) = some i) :
    verifyPaymentTransaction (some tx) currentSlot req c = true ↔
      (natOfDigits req.amount.data : Int) ≤
        (tx.postBalances.getD i 0 : Int) - (tx.preBalances.getD i 0 : Int) :=
  verify_some_sol tx currentSlot req c i herr htok hfin hidx

/-- Witness for C1 at a concrete input: `sampleTxSOL` moves exactly the
required 1000000 lamports to the recipient, and the verifier accepts it at
confirmed commitment. -/
theorem verify_sol_amount_delta_witness :
    verifyPaymentTransaction (some sampleTxSOL) 200 sampleReqSOL
      Commitment.confirmed = true :=
  (verify_sol_amount_delta sampleTxSOL 200 sampleReqSOL Commitment.confirmed 1
    rfl rfl (by decide) (by decide)).mpr (by decide)

/-- C2: whenever the requirements' recipient address appears nowhere among a
transaction's involved accounts (its static account keys and the owners of
its post token balances), the verifier rejects — in particular a transaction
sending the exact required amount to a different address is rejected. -/
theorem verify_missing_recipient_rejects (tx : FetchedTransaction)
    (currentSlot : Nat) (req : PaymentRequirements) (c : Commitment)
    (h : req.recipient ∉ involvedAccounts tx) :
    verifyPaymentTransaction (some tx) currentSlot req c = false := by
  have hkeys : ∀ a ∈ tx.staticAccountKeys, (a == req.recipient) = false := by
    intro a ha
    rw [beq_eq_false_iff_ne]
    intro he
    exact h (List.mem_append.mpr (Or.inl (he ▸ ha)))
  have howners : ∀ b ∈ tx.postTokenBalances, ∀ m : Address,
      (b.owner == req.recipient && b.mint == m) = false := by
    intro b hb m
    have hown : (b.owner == req.recipient) = false := by
      rw [beq_eq_false_iff_ne]
      intro he
      exact h (List.mem_append.mpr (Or.inr (List.mem_map.mpr ⟨b, hb, he⟩)))
    simp [hown]
  rw [verify_some_eq]
  split
  · rfl
  split
  · rfl
  split
  · rw [findIdx?_eq_none_of_forall _ _ hkeys 0]
    rfl
  · rw [List.find?_eq_none.mpr (fun b hb => by simp [howners b hb])]
    rfl

/-- Witness for C2 at a concrete input: `sampleTxOther` moves the exact
required amount, but to `OtherAddr1111111` instead of the requirements'
recipient, and the verifier rejects it. -/
theorem verify_missing_recipient_rejects_witness :
    verifyPaymentTransaction (some sampleTxOther) 200 sampleReqSOL
      Commitment.confirmed = false :=
  verify_missing_recipient_rejects sampleTxOther 200 sampleReqSOL
    Commitment.confirmed (by decide)

/-- C3: for every fungible-token (USDC/USDT) verification of a present,
successful transaction on which the finality gate does not fire, the
verifier locates the recipient's post and pre token balance entries matching
both the recipient owner address and the asset's mint; it accepts exactly
when a matching post entry exists (rejecting when none does) and its amount
minus the matching pre entry's amount (a missing pre entry counting as zero)
is at least the required amount — the same post-minus-pre ≥ amount rule as
the native path. -/
theorem verify_token_amount_delta (tx : FetchedTransaction) (currentSlot : Nat)
    (req : PaymentRequirements) (c : Commitment)
    (herr : tx.err = false)
    (htok : req.token = TokenType.USDC ∨ req.token = TokenType.USDT)
    (hfin : ¬(c = Commitment.finalized ∧ tx.slot ≠ 0 ∧
      (currentSlot : Int) - (tx.slot : Int) < 32)) :
    verifyPaymentTransaction (some tx) currentSlot req c = true ↔
      ∃ pb, tx.postTokenBalances.find?
          (fun b => b.owner == req.recipient &&
            b.mint == TOKEN_MINTS req.network req.token) = some pb ∧
        (natOfDigits req.amount.data : Int) ≤
          (natOfDigits pb.amount.data : Int) -
            (match tx.preTokenBalances.find?
                (fun b => b.owner == req.recipient &&
                  b.mint == TOKEN_MINTS req.network req.token) with
             | some b => (natOfDigits b.amount.data : Int)
             | none => 0) :=
  verify_some_token tx currentSlot req c herr htok hfin



/-- Witness for C3 at a concrete input: in `sampleTxUSDC` the recipient's
post token balance entry holds exactly the required 250000 base units and
the recipient has no pre entry; the verifier accepts. -/
theorem verify_token_amount_delta_witness :
    verifyPaymentTransaction (some sampleTxUSDC) 200 sampleReqUSDC
      Commitment.confirmed = true :=
  (verify_token_amount_delta sampleTxUSDC 200 sampleReqUSDC Commitment.confirmed
    rfl (Or.inl rfl) (by decide)).mpr
    ⟨⟨sampleRecipient, "4zMMC9srt5Ri5X14GAgXhaHii3GnPAEERYPJgZJDncDU", "250000"⟩,
      by decide, by decide⟩

/-- Counterexample to C4 as stated: the source guards the finality-depth
check with `if (commitment === "finalized" && transaction.slot)`, and a
transaction reported at inclusion slot 0 makes `transaction.slot` falsy, so
the 32-slot depth check is skipped.  `sampleTxSlot0` is included at slot 0
while the current head is slot 10 — fewer than 32 slots behind head — yet
verification at finalized commitment accepts it instead of rejecting it. -/
theorem verify_finality_slot_zero_skips_gate :
    verifyPaymentTransaction (some sampleTxSlot0) 10 sampleReqSOL
      Commitment.finalized = true := by decide

/-- C4 (amended): when verify is called at finalized commitment level on a
transaction whose inclusion slot is nonzero and fewer than 32 slots behind
the current head, it rejects; the same otherwise-valid transaction requested
at confirmed commitment is accepted — the 32-slot depth check applies only
when commitment = finalized (and, due to a truthiness test in the source,
only when the inclusion slot is nonzero). -/
theorem verify_finality_gate (tx : FetchedTransaction) (currentSlot : Nat)
    (req : PaymentRequirements) (i : Nat)
    (hslot : tx.slot ≠ 0)
    (hdepth : (currentSlot : Int) - (tx.slot : Int) < 32)
    (herr : tx.err = false)
    (htok : req.token = TokenType.SOL)
    (hidx : tx.staticAccountKeys.findIdx? (fun key => key == req.recipient) = some i)
    (hamt : (natOfDigits req.amount.data : Int) ≤
      (tx.postBalances.getD i 0 : Int) - (tx.preBalances.getD i 0 : Int)) :
    verifyPaymentTransaction (some tx) currentSlot req Commitment.finalized = false ∧
    verifyPaymentTransaction (some tx) currentSlot req Commitment.confirmed = true := by
  constructor
  · rw [verify_some_eq, herr]
    simp only [Bool.false_eq_true, if_false]
    rw [if_pos ⟨by trivial, hslot, hdepth⟩]
  · exact (verify_some_sol tx currentSlot req Commitment.confirmed i herr htok
      (by simp) hidx).mpr hamt

/-- Witness for C4 (amended) at a concrete input: `sampleTxSOL` is included
at slot 100 with the head at slot 110 (10 slots of depth); verification at
finalized commitment rejects it while verification at confirmed commitment
accepts it. -/
theorem verify_finality_gate_witness :
    verifyPaymentTransaction (some sampleTxSOL) 110 sampleReqSOL
      Commitment.finalized = false ∧
    verifyPaymentTransaction (some sampleTxSOL) 110 sampleReqSOL
      Commitment.confirmed = true :=
  verify_finality_gate sampleTxSOL 110 sampleReqSOL 1 (by decide) (by decide)
    rfl rfl (by decide) (by decide)

/-- C5: a transaction absent from the ledger at the given commitment level
(`connection.getTransaction` returning null) is rejected with the boolean
`false`, for every requirements record, head slot and commitment level; the
embedded verifier is a total function, reflecting that the source wraps
verification in a `try`/`catch` that returns `false` instead of throwing. -/
theorem verify_absent_transaction_rejects (currentSlot : Nat)
    (req : PaymentRequirements) (c : Commitment) :
    verifyPaymentTransaction none currentSlot req c = false := rfl

/-- C6: for every fungible-token build in which the payer has no associated
token account for the asset's mint, `createTokenPaymentTransaction` fails
with `MissingSourceAccount` (the `Sender does not have an associated token
account` throw) — a hard stop that provisions nothing — and the payment
pipeline consequently submits no transaction to the network. -/
theorem token_build_missing_source_hard_stop (env : ChainEnv) (payer : Address)
    (req : PaymentRequirements) (submit : BuiltTransaction → String) (now : Nat)
    (htok : req.token = TokenType.USDC ∨ req.token = TokenType.USDT)
    (hsender : env.accountExists
      (env.associatedTokenAddress (TOKEN_MINTS req.network req.token) payer) = false) :
    createTokenPaymentTransaction env payer req =
      Except.error (BuildError.missingSourceAccount req.token
        (env.associatedTokenAddress (TOKEN_MINTS req.network req.token) payer)) ∧
    (executePayment env payer req submit now).2 = [] := by
  have h1 : createTokenPaymentTransaction env payer req =
      Except.error (BuildError.missingSourceAccount req.token
        (env.associatedTokenAddress (TOKEN_MINTS req.network req.token) payer)) := by
    simp only [createTokenPaymentTransaction]
    rw [if_pos hsender]
  refine ⟨h1, ?_⟩
  have h2 : createPaymentTransaction env payer req =
      Except.error (BuildError.missingSourceAccount req.token
        (env.associatedTokenAddress (TOKEN_MINTS req.network req.token) payer)) := by
    unfold createPaymentTransaction
    rw [if_neg (by rcases htok with h | h <;> rw [h] <;> simp)]
    exact h1
  unfold executePayment
  rw [h2]

/-- Witness for C6 at a concrete input: in `sampleEnvNoSender` the payer's
associated USDC token account does not exist; the token build fails with
`MissingSourceAccount` and the pipeline submits nothing. -/
theorem token_build_missing_source_hard_stop_witness :
    createTokenPaymentTransaction sampleEnvNoSender "PayerAddr1111111" sampleReqUSDC =
      Except.error (BuildError.missingSourceAccount TokenType.USDC
        (sampleEnvNoSender.associatedTokenAddress
          (TOKEN_MINTS Network.devnet TokenType.USDC) "PayerAddr1111111")) ∧
    (executePayment sampleEnvNoSender "PayerAddr1111111" sampleReqUSDC
      sampleSubmit 0).2 = [] :=
  token_build_missing_source_hard_stop sampleEnvNoSender "PayerAddr1111111"
    sampleReqUSDC sampleSubmit 0 (Or.inl rfl) rfl

/-- C7: converting a valid decimal string (within the asset's precision) to
base units and back yields its canonical form — the same string with any
trailing zero padding of the fractional part removed. -/
theorem amount_codec_round_trip (t : TokenType) (d : String)
    (h : ValidDecimal d (TOKEN_DECIMALS t)) :
    baseUnitsToAmount (amountToBaseUnits d t) t = canonical d := by
  obtain ⟨n, f, hf, hlen, rfl⟩ := h
  unfold baseUnitsToAmount amountToBaseUnits canonical mkDecimal
  exact congrArg String.mk
    (roundtrip_list n f (TOKEN_DECIMALS t) (by cases t <;> decide) hf hlen)

/-- Witness for C7 at a concrete input: `"0.001"` of USDC (6 decimals)
round-trips to `"0.001"`. -/
theorem amount_codec_round_trip_witness :
    baseUnitsToAmount (amountToBaseUnits "0.001" TokenType.USDC) TokenType.USDC =
      canonical "0.001" :=
  amount_codec_round_trip TokenType.USDC "0.001"
    ⟨0, ['0', '0', '1'], by decide, by decide, by decide⟩

/-- Counterexample to C8 as stated: the codec never fails — there is no
`MalformedAmount` (or any other) failure path in `amountToBaseUnits`.  A
fractional part longer than the asset's precision is silently truncated by
`.slice(0, decimals)`: `"0.9999999"` of USDC (6 decimals) yields the
ordinary value 999999, losing the seventh digit, and is indistinguishable
from `"0.999999"`. -/
theorem amountToBaseUnits_truncates_silently :
    amountToBaseUnits "0.9999999" TokenType.USDC = 999999 ∧
    amountToBaseUnits "0.9999999" TokenType.USDC =
      amountToBaseUnits "0.999999" TokenType.USDC :=
  ⟨by decide, by decide⟩

/-- C8 (amended): the amount codec never fails and never rounds; it is the
deterministic pad/truncate map — a decimal string with whole part `n` and
fractional digits `f` parses to
`n * 10^decimals + value(first decimals digits of f) * 10^(decimals - |f|)`,
so fractional parts shorter than the precision are zero-padded and longer
ones are truncated (silently losing the excess digits, rather than failing
with `MalformedAmount`). -/
theorem amountToBaseUnits_pad_truncate (t : TokenType) (n : Nat) (f : List Char)
    (hf : ∀ c ∈ f, c.isDigit = true) :
    amountToBaseUnits (mkDecimal n f) t =
      n * 10 ^ TOKEN_DECIMALS t +
        natOfDigits (f.take (TOKEN_DECIMALS t)) *
          10 ^ (TOKEN_DECIMALS t - f.length) := by
  unfold amountToBaseUnits mkDecimal
  rw [show (String.mk (mkDecimalList n f)).data = mkDecimalList n f from rfl]
  rw [parse_mkDecimal n f _ hf]
  by_cases hlen : f.length ≤ TOKEN_DECIMALS t
  · rw [padEnd_take_of_le f _ hlen, natOfDigits_append, natOfDigits_append,
      natOfDigits_natDigits, natOfDigits_replicate_zero, List.length_append,
      List.length_replicate, List.take_of_length_le hlen]
    rw [show f.length + (TOKEN_DECIMALS t - f.length) = TOKEN_DECIMALS t by omega]
    omega
  · have h0 : TOKEN_DECIMALS t - f.length = 0 := by omega
    have hpe : padEnd f (TOKEN_DECIMALS t) '0' = f := by
      unfold padEnd
      rw [h0]
      simp
    rw [h0, pow_zero, Nat.mul_one, hpe, natOfDigits_append, natOfDigits_natDigits]
    rw [show (f.take (TOKEN_DECIMALS t)).length = TOKEN_DECIMALS t by
      rw [List.length_take]
      omega]

/-- Witness for C8 (amended) at a concrete input: `"1.23"` of USDC parses
to `1 * 10^6 + 23 * 10^4 = 1230000`. -/
theorem amountToBaseUnits_pad_truncate_witness :
    amountToBaseUnits (mkDecimal 1 ['2', '3']) TokenType.USDC =
      1 * 10 ^ TOKEN_DECIMALS TokenType.USDC +
        natOfDigits (['2', '3'].take (TOKEN_DECIMALS TokenType.USDC)) *
          10 ^ (TOKEN_DECIMALS TokenType.USDC - ['2', '3'].length) :=
  amountToBaseUnits_pad_truncate TokenType.USDC 1 ['2', '3'] (by decide)

/-- C9: when the client receives a 402 challenge whose body parses as
requirements and no signer is configured (neither on the client nor on the
request), `fetch` terminates with a `PaymentRequiredError` carrying the
parsed requirements; the action trace contains only the initial request —
no transaction build and no network submission — and the outcome is the
same for every possible payment pipeline `pay`, which is never invoked. -/
theorem fetch_no_signer_payment_required (options : RequestOptions)
    (initial : HttpResponse)
    (pay : PaymentRequirements → Except BuildError PaymentProof × List ClientAction)
    (send : RequestOptions → HttpResponse) (req : PaymentRequirements)
    (hstatus : initial.status = 402)
    (hbody : initial.bodyRequirements = some req) :
    clientFetch false true options initial pay send =
      (ClientOutcome.paymentRequired req, [ClientAction.httpRequest options]) := by
  unfold clientFetch
  rw [if_pos ⟨hstatus, rfl⟩, if_pos rfl, hbody]

/-- Witness for C9 at a concrete input: a 402 response carrying
`sampleReqSOL`, no signer — the client fails with `PaymentRequiredError`
holding those requirements after the single initial request. -/
theorem fetch_no_signer_payment_required_witness :
    clientFetch false true sampleOptions sample402Response samplePay sampleSend =
      (ClientOutcome.paymentRequired sampleReqSOL,
        [ClientAction.httpRequest sampleOptions]) :=
  fetch_no_signer_payment_required sampleOptions sample402Response samplePay
    sampleSend sampleReqSOL rfl rfl

/-- Counterexample to C10 as stated: the retry does not preserve all other
headers — `retryWithPayment` also sets `Content-Type` to
`application/json`, overwriting the original request's `Content-Type`
(`text/plain` in `sampleOptionsCT`). -/
theorem retry_overwrites_content_type :
    headersGet (retryWithPayment sampleOptionsCT sampleProof).headers
        "Content-Type" = some "application/json" ∧
    headersGet sampleOptionsCT.headers "Content-Type" = some "text/plain" ∧
    headersGet (retryWithPayment sampleOptionsCT sampleProof).headers
        "Content-Type" ≠ headersGet sampleOptionsCT.headers "Content-Type" :=
  ⟨by decide, by decide, by decide⟩

/-- C10 (amended): the retried request carries the Payment Proof in the
dedicated `X-Payment` header and preserves the original method, body and
every header other than `X-Payment` and `Content-Type`; `Content-Type` is
forced to `application/json`. -/
theorem retry_preserves_other_properties (options : RequestOptions)
    (proof : PaymentProof) (name : String)
    (hx : name ≠ "X-Payment") (hct : name ≠ "Content-Type") :
    (retryWithPayment options proof).method = options.method ∧
    (retryWithPayment options proof).body = options.body ∧
    headersGet (retryWithPayment options proof).headers name =
      headersGet options.headers name ∧
    headersGet (retryWithPayment options proof).headers "X-Payment" =
      some (serializeProof proof) := by
  refine ⟨rfl, rfl, ?_, ?_⟩
  · show headersGet (headersSet (headersSet options.headers "X-Payment"
      (serializeProof proof)) "Content-Type" "application/json") name =
        headersGet options.headers name
    rw [headersGet_headersSet_ne _ _ _ _ hct, headersGet_headersSet_ne _ _ _ _ hx]
  · show headersGet (headersSet (headersSet options.headers "X-Payment"
      (serializeProof proof)) "Content-Type" "application/json") "X-Payment" =
        some (serializeProof proof)
    rw [headersGet_headersSet_ne _ _ _ _ (by decide),
      headersGet_headersSet_self]

/-- Witness for C10 (amended) at a concrete input: retrying
`sampleOptions` preserves its method, body and `Accept` header, and
attaches the serialized proof as `X-Payment`. -/
theorem retry_preserves_other_properties_witness :
    (retryWithPayment sampleOptions sampleProof).method = sampleOptions.method ∧
    (retryWithPayment sampleOptions sampleProof).body = sampleOptions.body ∧
    headersGet (retryWithPayment sampleOptions sampleProof).headers "Accept" =
      headersGet sampleOptions.headers "Accept" ∧
    headersGet (retryWithPayment sampleOptions sampleProof).headers "X-Payment" =
      some (serializeProof sampleProof) :=
  retry_preserves_other_properties sampleOptions sampleProof "Accept"
    (by decide) (by decide)

end X402
